import Mathlib

/-!
Verification of `avocado/core/output.py`: terminal-aware output helpers for a
test runner.  Strings are embedded as lists of characters; each Python class
becomes a structure with explicit state passing, and the messages handed to
the `logging` module (or to the pager pipe) are recorded in an output list so
that theorems can speak about what was forwarded and in which order.
-/

set_option autoImplicit false

/-- Strings of the Python program, embedded as lists of characters. -/
abbrev Str := List Char

/-- The line terminator character used by `LoggingFile.write`. -/
def nl : Char := '\n'

/-- Embedding of Python's `data.split('\n')`: cut the character list at every
newline, keeping empty pieces, so that the result always has one piece more
than the number of newline characters.  (`splitlines()` would discard a
trailing blank line, which is exactly why the source uses `split`.) -/
def splitNL : Str → List Str
  | [] => [[]]
  | c :: cs =>
    if c = nl then [] :: splitNL cs
    else
      match splitNL cs with
      | [] => [[c]]
      | p :: ps => (c :: p) :: ps

/-- The last element of a list of pieces, with `[]` as the default: embeds the
Python indexing `data_lines[-1]` (the split result is never empty). -/
def lastD : List Str → Str
  | [] => []
  | p :: ps =>
    match ps with
    | [] => p
    | _ :: _ => lastD ps

theorem splitNL_ne_nil (s : Str) : splitNL s ≠ [] := by
  cases s with
  | nil => simp [splitNL]
  | cons c cs =>
    simp only [splitNL]
    split
    · simp
    · split
      · simp
      · simp

theorem lastD_cons_cons (p q : Str) (ps : List Str) :
    lastD (p :: q :: ps) = lastD (q :: ps) := rfl

theorem lastD_append (A l : List Str) (h : l ≠ []) :
    lastD (A ++ l) = lastD l := by
  induction A with
  | nil => rfl
  | cons a A ih =>
    cases hAl : A ++ l with
    | nil =>
      rcases List.append_eq_nil.mp hAl with ⟨-, rfl⟩
      exact absurd rfl h
    | cons x xs =>
      rw [List.cons_append, hAl, lastD_cons_cons, ← hAl, ih]

theorem lastD_concat (A : List Str) (x : Str) : lastD (A ++ [x]) = x := by
  rw [lastD_append A [x] (by simp)]; rfl

theorem dropLast_concat_lastD (l : List Str) (h : l ≠ []) :
    l.dropLast ++ [lastD l] = l := by
  induction l with
  | nil => exact absurd rfl h
  | cons p ps ih =>
    cases ps with
    | nil => rfl
    | cons q qs =>
      rw [List.dropLast_cons₂, lastD_cons_cons, List.cons_append, ih (by simp)]

theorem splitNL_cons_form (s : Str) : ∃ p ps, splitNL s = p :: ps := by
  cases hs : splitNL s with
  | nil => exact absurd hs (splitNL_ne_nil s)
  | cons p ps => exact ⟨p, ps, rfl⟩

/-- How splitting distributes over concatenation: the last piece of the left
part fuses with the first piece of the right part. -/
theorem splitNL_append (s t : Str) (q : Str) (qs : List Str)
    (ht : splitNL t = q :: qs) :
    splitNL (s ++ t) = (splitNL s).dropLast ++ (lastD (splitNL s) ++ q) :: qs := by
  induction s with
  | nil => simpa [splitNL, lastD] using ht
  | cons c cs ih =>
    obtain ⟨p, ps, hps⟩ := splitNL_cons_form cs
    by_cases hc : c = nl
    · subst hc
      rw [List.cons_append]
      rw [show splitNL (nl :: (cs ++ t)) = [] :: splitNL (cs ++ t) by
            simp [splitNL]]
      rw [show splitNL (nl :: cs) = [] :: splitNL cs by simp [splitNL]]
      rw [ih, hps]
      cases ps with
      | nil => simp [lastD]
      | cons r rs => simp [List.dropLast_cons₂, lastD_cons_cons]
    · rw [List.cons_append]
      rw [show splitNL (c :: cs) = (c :: p) :: ps by
            simp [splitNL, hc, hps]]
      rw [hps] at ih
      cases ps with
      | nil =>
        simp only [List.dropLast_single, List.nil_append, lastD] at ih
        rw [show splitNL (c :: (cs ++ t)) = (c :: (p ++ q)) :: qs by
              simp [splitNL, hc, ih]]
        simp [lastD]
      | cons r rs =>
        rw [List.dropLast_cons₂, lastD_cons_cons, List.cons_append] at ih
        rw [show splitNL (c :: (cs ++ t))
              = (c :: p) :: ((r :: rs).dropLast ++ (lastD (r :: rs) ++ q) :: qs) by
              simp [splitNL, hc, ih]]
        simp [List.dropLast_cons₂, lastD_cons_cons]

/-! ## `LoggingFile`: the line-buffering adapter

State of a `LoggingFile` instance: the prefix set at construction, the
pending-fragment buffer `self._buffer`, and (as the observable effect of
`self._logger.log`) the list of messages forwarded to the logger, in order. -/

structure LoggingFile where
  pfx : Str
  buffer : List Str
  logged : List Str
  deriving DecidableEq

/-- `LoggingFile.__init__`: empty buffer, nothing logged yet. -/
def LoggingFile.init (p : Str) : LoggingFile := ⟨p, [], []⟩

/-- `LoggingFile._log_line`: pass one line to the logging module, with the
prefix attached. -/
def LoggingFile.log_line (f : LoggingFile) (line : Str) : LoggingFile :=
  { f with logged := f.logged ++ [f.pfx ++ line] }

/-- `LoggingFile._flush_buffer`: when the buffer list is non-empty, log the
concatenation of its pieces as one line and clear it. -/
def LoggingFile.flush_buffer (f : LoggingFile) : LoggingFile :=
  if f.buffer = [] then f
  else { f.log_line f.buffer.flatten with buffer := [] }

/-- `LoggingFile.write`: split `data` on the newline character; when more than
one piece results, the first piece completes the buffered line and the buffer
is flushed; every interior piece is logged as its own line; a non-empty final
piece is appended to the buffer. -/
def LoggingFile.write (f : LoggingFile) (data : Str) : LoggingFile :=
  let data_lines := splitNL data
  let f1 := if 1 < data_lines.length
    then ({ f with buffer := f.buffer ++ [data_lines.headD []] }).flush_buffer
    else f
  let f2 := ((data_lines.drop 1).dropLast).foldl LoggingFile.log_line f1
  if lastD data_lines ≠ []
  then { f2 with buffer := f2.buffer ++ [lastD data_lines] }
  else f2

/-- `LoggingFile.writelines`: write each fragment of the iterable in turn. -/
def LoggingFile.writelines (f : LoggingFile) (lines : List Str) : LoggingFile :=
  lines.foldl LoggingFile.write f

/-- `LoggingFile.flush`: force out whatever is buffered. -/
def LoggingFile.flush (f : LoggingFile) : LoggingFile := f.flush_buffer

/-- `LoggingFile.isatty`. -/
def LoggingFile.isatty (_f : LoggingFile) : Bool := false

/-- Specification-side operation: the pieces of a split with a final empty
trailing piece removed. -/
def dropTrailingEmpty (l : List Str) : List Str :=
  if lastD l = [] then l.dropLast else l

/-- The coupling invariant between a `LoggingFile` state and the concatenation
`S` of everything written so far: the forwarded lines are the non-final split
pieces (prefixed), the buffer holds exactly the final piece, and the buffer
never stores empty fragments. -/
def goodState (p : Str) (S : Str) (f : LoggingFile) : Prop :=
  f.pfx = p ∧
  f.logged = ((splitNL S).dropLast).map (fun l => p ++ l) ∧
  f.buffer.flatten = lastD (splitNL S) ∧
  ∀ b ∈ f.buffer, b ≠ []

theorem goodState_init (p : Str) : goodState p [] (LoggingFile.init p) := by
  refine ⟨rfl, ?_, ?_, ?_⟩ <;> simp [LoggingFile.init, splitNL, lastD]

theorem foldl_log_line (L : List Str) (f : LoggingFile) :
    (L.foldl LoggingFile.log_line f).logged
        = f.logged ++ L.map (fun l => f.pfx ++ l)
    ∧ (L.foldl LoggingFile.log_line f).buffer = f.buffer
    ∧ (L.foldl LoggingFile.log_line f).pfx = f.pfx := by
  induction L generalizing f with
  | nil => simp
  | cons l L ih =>
    obtain ⟨h1, h2, h3⟩ := ih (f.log_line l)
    rw [List.foldl_cons]
    refine ⟨?_, ?_, ?_⟩
    · rw [h1]; simp [LoggingFile.log_line]
    · rw [h2]; simp [LoggingFile.log_line]
    · rw [h3]; simp [LoggingFile.log_line]

/-- One `write` call preserves the coupling invariant, extending the written
history by `data`. -/
theorem write_goodState (p S data : Str) (f : LoggingFile)
    (h : goodState p S f) : goodState p (S ++ data) (f.write data) := by
  obtain ⟨hp, hlog, hbuf, hne⟩ := h
  obtain ⟨d, ds, hd⟩ := splitNL_cons_form data
  have hsplit := splitNL_append S data d ds hd
  have hSne := splitNL_ne_nil S
  cases ds with
  | nil =>
    have hw : f.write data
        = if d ≠ [] then { f with buffer := f.buffer ++ [d] } else f := by
      simp [LoggingFile.write, hd, lastD]
    by_cases hdnil : d = []
    · subst hdnil
      rw [hw, if_neg (by simp)]
      have hS : splitNL (S ++ data) = splitNL S := by
        rw [hsplit]
        simpa using dropLast_concat_lastD (splitNL S) hSne
      exact ⟨hp, by rw [hS]; exact hlog, by rw [hS]; exact hbuf, hne⟩
    · rw [hw, if_pos hdnil]
      refine ⟨hp, ?_, ?_, ?_⟩
      · show f.logged = _
        rw [hsplit]
        simpa [List.dropLast_concat] using hlog
      · show (f.buffer ++ [d]).flatten = _
        rw [hsplit]
        simp [List.flatten_append, hbuf, lastD_concat]
      · intro b hb
        rcases List.mem_append.mp hb with hb | hb
        · exact hne b hb
        · simp only [List.mem_singleton] at hb; subst hb; exact hdnil
  | cons e es =>
    -- more than one piece: the head piece completes the buffered line
    have hflushed :
        ({ f with buffer := f.buffer ++ [d] } : LoggingFile).flush_buffer
          = ⟨p, [], f.logged ++ [p ++ (lastD (splitNL S) ++ d)]⟩ := by
      rw [LoggingFile.flush_buffer, if_neg (by simp)]
      simp [LoggingFile.log_line, List.flatten_append, hbuf, hp]
    have hw0 : f.write data
        = (if lastD (e :: es) ≠ [] then
            { ((e :: es).dropLast.foldl LoggingFile.log_line
                (({ f with buffer := f.buffer ++ [d] }).flush_buffer)) with
              buffer :=
                ((e :: es).dropLast.foldl LoggingFile.log_line
                  (({ f with buffer := f.buffer ++ [d] }).flush_buffer)).buffer
                ++ [lastD (e :: es)] }
          else
            (e :: es).dropLast.foldl LoggingFile.log_line
              (({ f with buffer := f.buffer ++ [d] }).flush_buffer)) := by
      simp only [LoggingFile.write, hd]
      rw [if_pos (show (1 : Nat) < (d :: e :: es).length by simp)]
      rfl
    have hw : f.write data
        = (if lastD (e :: es) ≠ [] then
            { ((e :: es).dropLast.foldl LoggingFile.log_line
                (⟨p, [], f.logged ++ [p ++ (lastD (splitNL S) ++ d)]⟩ : LoggingFile)) with
              buffer :=
                ((e :: es).dropLast.foldl LoggingFile.log_line
                  (⟨p, [], f.logged ++ [p ++ (lastD (splitNL S) ++ d)]⟩ : LoggingFile)).buffer
                ++ [lastD (e :: es)] }
          else
            (e :: es).dropLast.foldl LoggingFile.log_line
              (⟨p, [], f.logged ++ [p ++ (lastD (splitNL S) ++ d)]⟩ : LoggingFile)) := by
      rw [hw0, hflushed]
    obtain ⟨hf1, hf2, hf3⟩ :=
      foldl_log_line ((e :: es).dropLast)
        (⟨p, [], f.logged ++ [p ++ (lastD (splitNL S) ++ d)]⟩ : LoggingFile)
    have hlast : lastD (splitNL (S ++ data)) = lastD (e :: es) := by
      rw [hsplit, lastD_append _ _ (by simp), lastD_cons_cons]
    have hdrop : (splitNL (S ++ data)).dropLast
        = (splitNL S).dropLast
          ++ (lastD (splitNL S) ++ d) :: (e :: es).dropLast := by
      rw [hsplit, List.dropLast_append_of_ne_nil _ (by simp),
        List.dropLast_cons₂]
    rw [hw]
    by_cases hlnil : lastD (e :: es) = []
    · rw [if_neg (by simpa using hlnil)]
      refine ⟨hf3, ?_, ?_, ?_⟩
      · rw [hf1, hdrop, hlog]
        simp
      · rw [hf2, hlast, hlnil]
        rfl
      · intro b hb
        rw [hf2] at hb
        simp at hb
    · rw [if_pos (by simpa using hlnil)]
      refine ⟨hf3, ?_, ?_, ?_⟩
      · show (_ : LoggingFile).logged = _
        rw [hf1, hdrop, hlog]
        simp
      · show (_ ++ [lastD (e :: es)]).flatten = _
        rw [hf2, hlast]
        simp
      · intro b hb
        rw [hf2] at hb
        simp only [List.nil_append, List.mem_singleton] at hb
        subst hb
        exact hlnil

theorem foldl_write_goodState (p : Str) (fs : List Str) (S : Str)
    (f : LoggingFile) (h : goodState p S f) :
    goodState p (S ++ fs.flatten) (fs.foldl LoggingFile.write f) := by
  induction fs generalizing S f with
  | nil => simpa using h
  | cons a fs ih =>
    have h1 := write_goodState p S a f h
    have h2 := ih (S ++ a) (f.write a) h1
    simpa [List.append_assoc] using h2

/-- Flushing a state that satisfies the invariant produces exactly the split
pieces of the history, without a final empty trailing piece. -/
theorem flush_goodState (p S : Str) (f : LoggingFile) (h : goodState p S f) :
    f.flush.logged = (dropTrailingEmpty (splitNL S)).map (fun l => p ++ l) := by
  obtain ⟨hp, hlog, hbuf, hne⟩ := h
  by_cases hb : f.buffer = []
  · have hlS : lastD (splitNL S) = [] := by rw [← hbuf, hb]; rfl
    rw [LoggingFile.flush, LoggingFile.flush_buffer, if_pos hb, hlog,
      dropTrailingEmpty, if_pos hlS]
  · have hfl : f.buffer.flatten ≠ [] := by
      cases hbuf' : f.buffer with
      | nil => exact absurd hbuf' hb
      | cons b bs =>
        have hbne : b ≠ [] := hne b (by rw [hbuf']; exact List.mem_cons_self b bs)
        simp only [List.flatten_cons]
        intro hcontra
        exact hbne (List.append_eq_nil.mp hcontra).1
    have hlS : lastD (splitNL S) ≠ [] := by rw [← hbuf]; exact hfl
    rw [LoggingFile.flush, LoggingFile.flush_buffer, if_neg hb]
    show f.logged ++ [f.pfx ++ f.buffer.flatten] = _
    rw [dropTrailingEmpty, if_neg hlS, hlog, hbuf, hp,
      ← dropLast_concat_lastD (splitNL S) (splitNL_ne_nil S)]
    simp [List.dropLast_concat, lastD_concat]

/-- C1: for every finite sequence of fragments written in order and then
flushed, the lines forwarded to the logger (each carrying the sink's prefix)
are exactly, in order, the pieces of the concatenation split on the newline
character, a final empty trailing piece excluded. -/
theorem loggingFile_write_flush_spec (p : Str) (fs : List Str) :
    ((fs.foldl LoggingFile.write (LoggingFile.init p)).flush).logged
      = (dropTrailingEmpty (splitNL fs.flatten)).map (fun l => p ++ l) := by
  have h := foldl_write_goodState p fs [] (LoggingFile.init p) (goodState_init p)
  rw [List.nil_append] at h
  exact flush_goodState p fs.flatten _ h

/-- C4: `writelines` is calling `write` once per fragment, in iteration order
(full state equality, so both the forwarded lines and the final buffer
agree); on `["x\n", "y\n"]` it forwards the two lines `"x"` then `"y"`, never
the single line `"xy"`. -/
theorem writelines_eq_iterated_write :
    (∀ (f : LoggingFile) (ls : List Str),
        f.writelines ls = ls.foldl LoggingFile.write f)
  ∧ ((LoggingFile.init []).writelines ["x\n".toList, "y\n".toList]).logged
      = ["x".toList, "y".toList]
  ∧ ((LoggingFile.init []).writelines ["x\n".toList, "y\n".toList]).logged
      ≠ ["xy".toList] := by
  refine ⟨fun f ls => rfl, by decide, by decide⟩

/-- C10: flushing with an empty pending buffer forwards nothing (the state is
unchanged), flush is idempotent, and a write ending in the line terminator
followed by a flush produces no extra line (the flush is a no-op on the whole
state). -/
theorem flush_empty_buffer_spec :
    (∀ f : LoggingFile, f.buffer = [] → f.flush = f)
  ∧ (∀ f : LoggingFile, f.flush.flush = f.flush)
  ∧ (∀ (f : LoggingFile) (data : Str),
        (f.write (data ++ [nl])).flush = f.write (data ++ [nl])) := by
  have hempty : ∀ f : LoggingFile, f.buffer = [] → f.flush = f := by
    intro f hb
    rw [LoggingFile.flush, LoggingFile.flush_buffer, if_pos hb]
  have hbuf_flush : ∀ f : LoggingFile, f.flush.buffer = [] := by
    intro f
    rw [LoggingFile.flush, LoggingFile.flush_buffer]
    split
    · assumption
    · rfl
  refine ⟨hempty, fun f => hempty _ (hbuf_flush f), ?_⟩
  intro f data
  apply hempty
  -- the write ends in a newline, so the final split piece is empty and the
  -- buffer is left empty
  obtain ⟨d, ds, hd⟩ := splitNL_cons_form data
  have hsplit : splitNL (data ++ [nl])
      = (splitNL data).dropLast ++ (lastD (splitNL data) ++ []) :: [[]] :=
    splitNL_append data [nl] [] [[]] (by simp [splitNL])
  have hlast : lastD (splitNL (data ++ [nl])) = [] := by
    rw [hsplit, lastD_append _ _ (by simp), lastD_cons_cons]
    rfl
  have hlen : 1 < (splitNL (data ++ [nl])).length := by
    rw [hsplit]
    simp
  -- evaluate the final branch of `write`: the last piece is empty, so the
  -- buffer is whatever the flush of the head piece left, namely `[]`
  obtain ⟨q, qs, hq⟩ := splitNL_cons_form (data ++ [nl])
  have hwrite : f.write (data ++ [nl])
      = ((q :: qs).drop 1).dropLast.foldl LoggingFile.log_line
          (({ f with buffer := f.buffer ++ [(q :: qs).headD []] }).flush_buffer) := by
    rw [hq] at hlast hlen
    simp only [LoggingFile.write]
    rw [hq, if_pos hlen, if_neg (by simpa using hlast)]
  rw [hwrite]
  rw [(foldl_log_line _ _).2.1]
  rw [LoggingFile.flush_buffer]
  split
  · assumption
  · rfl

/-! ## `TermSupport`: terminal-capability-gated decoration

The escape-code class constants are module-level in the embedding; the eight
per-category attributes and the terminator are instance state, set either to
the escape codes (construction on a capable terminal) or to empty strings
(`disable`).  Note that `MOVE_BACK` is a class constant which `disable` never
reassigns. -/

def COLOR_BLUE : Str := "\x1b[94m".toList

def COLOR_GREEN : Str := "\x1b[92m".toList

def COLOR_YELLOW : Str := "\x1b[93m".toList

def COLOR_RED : Str := "\x1b[91m".toList

def CONTROL_END : Str := "\x1b[0m".toList

def MOVE_BACK : Str := "\x1b[1D".toList

def MOVE_FORWARD : Str := "\x1b[1C".toList

structure TermSupport where
  HEADER : Str
  PASS : Str
  SKIP : Str
  FAIL : Str
  ERROR : Str
  NOT_FOUND : Str
  WARN : Str
  PARTIAL : Str
  ENDC : Str
  deriving DecidableEq

/-- `TermSupport.__init__` on a capable terminal: every category carries its
color and the terminator is the control-end code. -/
def TermSupport.init : TermSupport :=
  { HEADER := COLOR_BLUE
    PASS := COLOR_GREEN
    SKIP := COLOR_YELLOW
    FAIL := COLOR_RED
    ERROR := COLOR_RED
    NOT_FOUND := COLOR_YELLOW
    WARN := COLOR_YELLOW
    PARTIAL := COLOR_YELLOW
    ENDC := CONTROL_END }

/-- `TermSupport.disable`: blank the eight category attributes and the
terminator (the class constants such as `MOVE_BACK` are untouched). -/
def TermSupport.disable (_ts : TermSupport) : TermSupport :=
  { HEADER := []
    PASS := []
    SKIP := []
    FAIL := []
    ERROR := []
    NOT_FOUND := []
    WARN := []
    PARTIAL := []
    ENDC := [] }

def TermSupport.header_str (ts : TermSupport) (msg : Str) : Str :=
  ts.HEADER ++ msg ++ ts.ENDC

def TermSupport.fail_header_str (ts : TermSupport) (msg : Str) : Str :=
  ts.FAIL ++ msg ++ ts.ENDC

def TermSupport.healthy_str (ts : TermSupport) (msg : Str) : Str :=
  ts.PASS ++ msg ++ ts.ENDC

def TermSupport.partial_str (ts : TermSupport) (msg : Str) : Str :=
  ts.PARTIAL ++ msg ++ ts.ENDC

def TermSupport.pass_str (ts : TermSupport) : Str :=
  MOVE_BACK ++ ts.PASS ++ "PASS".toList ++ ts.ENDC

def TermSupport.skip_str (ts : TermSupport) : Str :=
  MOVE_BACK ++ ts.SKIP ++ "SKIP".toList ++ ts.ENDC

def TermSupport.fail_str (ts : TermSupport) : Str :=
  MOVE_BACK ++ ts.FAIL ++ "FAIL".toList ++ ts.ENDC

def TermSupport.error_str (ts : TermSupport) : Str :=
  MOVE_BACK ++ ts.ERROR ++ "ERROR".toList ++ ts.ENDC

def TermSupport.not_found_str (ts : TermSupport) : Str :=
  MOVE_BACK ++ ts.NOT_FOUND ++ "NOT_FOUND".toList ++ ts.ENDC

def TermSupport.warn_str (ts : TermSupport) : Str :=
  MOVE_BACK ++ ts.WARN ++ "WARN".toList ++ ts.ENDC

/-- C2 as stated is false: after `disable`, the cursor-back escape is still
present in the pre-built tokens, because `disable` blanks only the color
attributes and the terminator, never the `MOVE_BACK` class constant.  So the
disabled `PASS` token is not the bare literal text. -/
theorem pass_str_disabled_keeps_move_back :
    (TermSupport.init.disable).pass_str ≠ "PASS".toList := by decide

/-- C2 amended: every pre-built status token is cursor-back + category-color
+ literal text + terminator; after `disable` the color and terminator are
empty, so the token is the cursor-back escape followed by the bare literal
text (the cursor-back component is not blanked). -/
theorem status_token_structure :
    (∀ ts : TermSupport,
        ts.pass_str = MOVE_BACK ++ ts.PASS ++ "PASS".toList ++ ts.ENDC
      ∧ ts.fail_str = MOVE_BACK ++ ts.FAIL ++ "FAIL".toList ++ ts.ENDC
      ∧ ts.error_str = MOVE_BACK ++ ts.ERROR ++ "ERROR".toList ++ ts.ENDC
      ∧ ts.skip_str = MOVE_BACK ++ ts.SKIP ++ "SKIP".toList ++ ts.ENDC
      ∧ ts.warn_str = MOVE_BACK ++ ts.WARN ++ "WARN".toList ++ ts.ENDC
      ∧ ts.not_found_str
          = MOVE_BACK ++ ts.NOT_FOUND ++ "NOT_FOUND".toList ++ ts.ENDC)
  ∧ (∀ ts : TermSupport,
        (ts.disable).pass_str = MOVE_BACK ++ "PASS".toList
      ∧ (ts.disable).fail_str = MOVE_BACK ++ "FAIL".toList
      ∧ (ts.disable).error_str = MOVE_BACK ++ "ERROR".toList
      ∧ (ts.disable).skip_str = MOVE_BACK ++ "SKIP".toList
      ∧ (ts.disable).warn_str = MOVE_BACK ++ "WARN".toList
      ∧ (ts.disable).not_found_str = MOVE_BACK ++ "NOT_FOUND".toList) := by
  constructor
  · intro ts
    exact ⟨rfl, rfl, rfl, rfl, rfl, rfl⟩
  · intro ts
    refine ⟨?_, ?_, ?_, ?_, ?_, ?_⟩ <;>
      simp [TermSupport.disable, TermSupport.pass_str, TermSupport.fail_str,
        TermSupport.error_str, TermSupport.skip_str, TermSupport.warn_str,
        TermSupport.not_found_str]

/-- C3: after `disable`, decoration is the identity on the text for every
category, because all the category attributes and the terminator are empty
strings. -/
theorem disabled_decoration_identity (ts : TermSupport) (msg : Str) :
    (ts.disable).header_str msg = msg
  ∧ (ts.disable).fail_header_str msg = msg
  ∧ (ts.disable).healthy_str msg = msg
  ∧ (ts.disable).partial_str msg = msg := by
  refine ⟨?_, ?_, ?_, ?_⟩ <;>
    simp [TermSupport.disable, TermSupport.header_str,
      TermSupport.fail_header_str, TermSupport.healthy_str,
      TermSupport.partial_str]

/-- Concrete instance of the flush facts: a freshly constructed sink flushes
to itself, and a write ending in a newline leaves nothing for flush to add. -/
theorem flush_empty_buffer_spec_witness :
    (LoggingFile.init "p".toList).flush = LoggingFile.init "p".toList
  ∧ (((LoggingFile.init []).write ("ab".toList ++ [nl])).flush
      = (LoggingFile.init []).write ("ab".toList ++ [nl])) :=
  ⟨flush_empty_buffer_spec.1 (LoggingFile.init "p".toList) rfl,
   flush_empty_buffer_spec.2.2 (LoggingFile.init []) "ab".toList⟩

/-! ## `View`: the output façade

The two observable channels of a `View` are the console logger (records with
a message, a severity level and the newline-suppression flag) and the
paginator (raw writes).  The global `term_support` instance is passed
explicitly. -/

def Logging.DEBUG : Nat := 10

def Logging.INFO : Nat := 20

def Logging.ERROR : Nat := 40

structure LogRecord where
  msg : Str
  level : Nat
  skip_newline : Bool
  deriving DecidableEq

structure View where
  list_mode : Bool
  throbber_pos : Nat
  console : List LogRecord
  paginator : List Str
  deriving DecidableEq

/-- `View.__init__`: the throbber phase starts at 0. -/
def View.init (list_mode : Bool) : View := ⟨list_mode, 0, [], []⟩

/-- `View.log`: in list mode append a newline unless suppressed and write to
the paginator; otherwise emit a console record at the given severity with the
newline-suppression side channel. -/
def View.log (v : View) (msg : Str) (level : Nat) (skip_newline : Bool) :
    View :=
  if v.list_mode then
    { v with paginator :=
        v.paginator ++ [if skip_newline then msg else msg ++ [nl]] }
  else
    { v with console := v.console ++ [⟨msg, level, skip_newline⟩] }

/-- `View._log_ui_info`. -/
def View._log_ui_info (v : View) (msg : Str) (skip_newline : Bool) : View :=
  v.log msg Logging.INFO skip_newline

/-- `View._log_ui_error`. -/
def View._log_ui_error (v : View) (msg : Str) (skip_newline : Bool) : View :=
  v.log msg Logging.ERROR skip_newline

/-- `View.log_ui_healthy`. -/
def View.log_ui_healthy (ts : TermSupport) (v : View) (msg : Str)
    (skip_newline : Bool) : View :=
  v._log_ui_info (ts.healthy_str msg) skip_newline

/-- `View.log_ui_partial`. -/
def View.log_ui_partial (ts : TermSupport) (v : View) (msg : Str)
    (skip_newline : Bool) : View :=
  v._log_ui_info (ts.partial_str msg) skip_newline

/-- `View.log_ui_header`. -/
def View.log_ui_header (ts : TermSupport) (v : View) (msg : Str) : View :=
  v._log_ui_info (ts.header_str msg) false

/-- `View.log_ui_error`. -/
def View.log_ui_error (ts : TermSupport) (v : View) (msg : Str) : View :=
  v._log_ui_info (ts.fail_header_str msg) false

/-- Modelled from the spec: the `" (%.2f s)"` elapsed-time suffix.  The
two-decimal rendering performed by Python's `%` operator on a float is
modelled over the rationals (rounded to hundredths, printed with exactly two
decimals); the claims below depend only on the suffix being one and the same
function of the elapsed time, never on the digits themselves. -/
def format2f (t : ℚ) : Str :=
  let n : Int := round (t * 100)
  let sign : Str := if n < 0 then "-".toList else []
  let m : Nat := n.natAbs
  sign ++ (Nat.repr (m / 100)).toList ++ ['.']
    ++ (if m % 100 < 10 then "0".toList else [])
    ++ (Nat.repr (m % 100)).toList

/-- The `" (%.2f s)"` suffix appended by the timed status helpers. -/
def elapsed_fmt (t : ℚ) : Str :=
  " (".toList ++ format2f t ++ " s)".toList

/-- `View.log_ui_status_pass`. -/
def View.log_ui_status_pass (ts : TermSupport) (v : View) (t_elapsed : ℚ) :
    View :=
  v._log_ui_info (ts.pass_str ++ elapsed_fmt t_elapsed) false

/-- `View.log_ui_status_error`. -/
def View.log_ui_status_error (ts : TermSupport) (v : View) (t_elapsed : ℚ) :
    View :=
  v._log_ui_error (ts.error_str ++ elapsed_fmt t_elapsed) false

/-- `View.log_ui_status_not_found`. -/
def View.log_ui_status_not_found (ts : TermSupport) (v : View)
    (t_elapsed : ℚ) : View :=
  v._log_ui_error (ts.not_found_str ++ elapsed_fmt t_elapsed) false

/-- `View.log_ui_status_fail`. -/
def View.log_ui_status_fail (ts : TermSupport) (v : View) (t_elapsed : ℚ) :
    View :=
  v._log_ui_error (ts.fail_str ++ elapsed_fmt t_elapsed) false

/-- `View.log_ui_status_skip`: the elapsed-time argument is accepted but not
used. -/
def View.log_ui_status_skip (ts : TermSupport) (v : View) (_t_elapsed : ℚ) :
    View :=
  v._log_ui_info ts.skip_str false

/-- `View.log_ui_status_warn`. -/
def View.log_ui_status_warn (ts : TermSupport) (v : View) (t_elapsed : ℚ) :
    View :=
  v._log_ui_error (ts.warn_str ++ elapsed_fmt t_elapsed) false

def THROBBER_STEPS : List Str := [['-'], ['\\'], ['|'], ['/']]

def THROBBER_MOVES : List Str :=
  [MOVE_BACK ++ THROBBER_STEPS.getD 0 [], MOVE_BACK ++ THROBBER_STEPS.getD 1 [],
   MOVE_BACK ++ THROBBER_STEPS.getD 2 [], MOVE_BACK ++ THROBBER_STEPS.getD 3 []]

/-- `View.log_ui_throbber_progress`: emit the current glyph (healthy color
when the progress came from the test, partial color otherwise), newline
suppressed, then advance the phase, wrapping after the last glyph. -/
def View.log_ui_throbber_progress (ts : TermSupport) (v : View)
    (progress_from_test : Bool) : View :=
  let v1 := if progress_from_test
    then View.log_ui_healthy ts v (THROBBER_MOVES.getD v.throbber_pos []) true
    else View.log_ui_partial ts v (THROBBER_MOVES.getD v.throbber_pos []) true
  if v1.throbber_pos = THROBBER_MOVES.length - 1
  then { v1 with throbber_pos := 0 }
  else { v1 with throbber_pos := v1.throbber_pos + 1 }

/-- C5: in console mode each timed status helper emits exactly one record;
pass and fail differ only in the token literal (with its color category),
both appending the same elapsed-time suffix; skip appends no suffix for any
elapsed time; severity is INFO for pass and skip and ERROR for fail, error,
not_found and warn. -/
theorem status_helpers_spec (ts : TermSupport) (v : View) (t : ℚ)
    (h : v.list_mode = false) :
    (View.log_ui_status_pass ts v t).console
        = v.console ++ [⟨ts.pass_str ++ elapsed_fmt t, Logging.INFO, false⟩]
  ∧ (View.log_ui_status_fail ts v t).console
        = v.console ++ [⟨ts.fail_str ++ elapsed_fmt t, Logging.ERROR, false⟩]
  ∧ (View.log_ui_status_skip ts v t).console
        = v.console ++ [⟨ts.skip_str, Logging.INFO, false⟩]
  ∧ (View.log_ui_status_error ts v t).console
        = v.console ++ [⟨ts.error_str ++ elapsed_fmt t, Logging.ERROR, false⟩]
  ∧ (View.log_ui_status_not_found ts v t).console
        = v.console
          ++ [⟨ts.not_found_str ++ elapsed_fmt t, Logging.ERROR, false⟩]
  ∧ (View.log_ui_status_warn ts v t).console
        = v.console ++ [⟨ts.warn_str ++ elapsed_fmt t, Logging.ERROR, false⟩] := by
  refine ⟨?_, ?_, ?_, ?_, ?_, ?_⟩ <;>
    simp [View.log_ui_status_pass, View.log_ui_status_fail,
      View.log_ui_status_skip, View.log_ui_status_error,
      View.log_ui_status_not_found, View.log_ui_status_warn,
      View._log_ui_info, View._log_ui_error, View.log, h]

/-- Instance of the status-helper facts on a fresh console-mode view at
elapsed time 3/2. -/
theorem status_helpers_spec_witness :
    (View.log_ui_status_pass TermSupport.init (View.init false) (3 / 2)).console
        = [⟨TermSupport.init.pass_str ++ elapsed_fmt (3 / 2),
            Logging.INFO, false⟩]
  ∧ (View.log_ui_status_skip TermSupport.init (View.init false) (3 / 2)).console
        = [⟨TermSupport.init.skip_str, Logging.INFO, false⟩] := by
  have h := status_helpers_spec TermSupport.init (View.init false) (3 / 2) rfl
  exact ⟨by simpa [View.init] using h.1, by simpa [View.init] using h.2.2.1⟩

/-- C6: the throbber phase starts at 0; whatever the `progress_from_test`
argument, each call emits the glyph of the current phase (decorated healthy
or partial) with the trailing newline suppressed and advances the phase by
one modulo 4; the phase stays below 4 and returns to its starting value after
exactly 4 calls. -/
theorem throbber_spec :
    (∀ lm : Bool, (View.init lm).throbber_pos = 0)
  ∧ (∀ (ts : TermSupport) (v : View) (b : Bool), v.throbber_pos < 4 →
        (View.log_ui_throbber_progress ts v b).throbber_pos
          = (v.throbber_pos + 1) % 4)
  ∧ (∀ (ts : TermSupport) (v : View) (b : Bool), v.throbber_pos < 4 →
        (View.log_ui_throbber_progress ts v b).throbber_pos < 4)
  ∧ (∀ (ts : TermSupport) (v : View) (b : Bool), v.list_mode = false →
        (View.log_ui_throbber_progress ts v b).console
          = v.console
            ++ [⟨(if b then ts.healthy_str else ts.partial_str)
                   (THROBBER_MOVES.getD v.throbber_pos []),
                 Logging.INFO, true⟩])
  ∧ (∀ (ts : TermSupport) (v : View) (b1 b2 b3 b4 : Bool),
        v.throbber_pos < 4 →
        (View.log_ui_throbber_progress ts
          (View.log_ui_throbber_progress ts
            (View.log_ui_throbber_progress ts
              (View.log_ui_throbber_progress ts v b1) b2) b3)
          b4).throbber_pos = v.throbber_pos) := by
  have hlog_pos : ∀ (v : View) (msg : Str) (lvl : Nat) (sk : Bool),
      (v.log msg lvl sk).throbber_pos = v.throbber_pos := by
    intro v msg lvl sk
    rw [View.log]
    split <;> rfl
  have hv1 : ∀ (ts : TermSupport) (v : View) (b : Bool),
      ((if b then
          View.log_ui_healthy ts v (THROBBER_MOVES.getD v.throbber_pos []) true
        else
          View.log_ui_partial ts v (THROBBER_MOVES.getD v.throbber_pos [])
            true)).throbber_pos = v.throbber_pos := by
    intro ts v b
    cases b <;>
      simp [View.log_ui_healthy, View.log_ui_partial, View._log_ui_info,
        hlog_pos]
  have hadv : ∀ (ts : TermSupport) (v : View) (b : Bool),
      (View.log_ui_throbber_progress ts v b).throbber_pos
        = if v.throbber_pos = 3 then 0 else v.throbber_pos + 1 := by
    intro ts v b
    simp only [View.log_ui_throbber_progress]
    rw [hv1 ts v b, show THROBBER_MOVES.length - 1 = 3 from rfl]
    by_cases h3 : v.throbber_pos = 3
    · rw [if_pos h3, if_pos h3]
    · rw [if_neg h3, if_neg h3]
  have hstep : ∀ (ts : TermSupport) (v : View) (b : Bool),
      v.throbber_pos < 4 →
      (View.log_ui_throbber_progress ts v b).throbber_pos
        = (v.throbber_pos + 1) % 4 := by
    intro ts v b h
    rw [hadv]
    by_cases h3 : v.throbber_pos = 3
    · rw [if_pos h3, h3]
    · rw [if_neg h3, Nat.mod_eq_of_lt (by omega)]
  have hlt : ∀ (ts : TermSupport) (v : View) (b : Bool),
      v.throbber_pos < 4 →
      (View.log_ui_throbber_progress ts v b).throbber_pos < 4 := by
    intro ts v b h
    rw [hstep ts v b h]
    omega
  refine ⟨fun lm => rfl, hstep, hlt, ?_, ?_⟩
  · intro ts v b h
    have hc1 : ((if b then
        View.log_ui_healthy ts v (THROBBER_MOVES.getD v.throbber_pos []) true
      else
        View.log_ui_partial ts v (THROBBER_MOVES.getD v.throbber_pos [])
          true)).console
        = v.console
          ++ [⟨(if b then ts.healthy_str else ts.partial_str)
                (THROBBER_MOVES.getD v.throbber_pos []),
              Logging.INFO, true⟩] := by
      cases b <;>
        simp [View.log_ui_healthy, View.log_ui_partial, View._log_ui_info,
          View.log, h]
    simp only [View.log_ui_throbber_progress]
    by_cases h3 : ((if b then
        View.log_ui_healthy ts v (THROBBER_MOVES.getD v.throbber_pos []) true
      else
        View.log_ui_partial ts v (THROBBER_MOVES.getD v.throbber_pos [])
          true)).throbber_pos = THROBBER_MOVES.length - 1
    · rw [if_pos h3]
      exact hc1
    · rw [if_neg h3]
      exact hc1
  · intro ts v b1 b2 b3 b4 h
    have l1 := hlt ts v b1 h
    have l2 := hlt ts _ b2 l1
    have l3 := hlt ts _ b3 l2
    rw [hstep ts _ b4 l3, hstep ts _ b3 l2, hstep ts _ b2 l1,
      hstep ts v b1 h]
    omega

/-- Instance of the throbber facts: on a fresh view the phase advances from 0
to 1 regardless of the argument, and four calls return it to 0. -/
theorem throbber_spec_witness :
    (View.log_ui_throbber_progress TermSupport.init (View.init false)
        true).throbber_pos = (0 + 1) % 4
  ∧ (View.log_ui_throbber_progress TermSupport.init
      (View.log_ui_throbber_progress TermSupport.init
        (View.log_ui_throbber_progress TermSupport.init
          (View.log_ui_throbber_progress TermSupport.init (View.init false)
            true) false) true) false).throbber_pos
      = (View.init false).throbber_pos := by
  constructor
  · have h := throbber_spec.2.1 TermSupport.init (View.init false) true
      (by decide)
    simpa [View.init] using h
  · exact throbber_spec.2.2.2.2 TermSupport.init (View.init false)
      true false true false (by decide)

/-! ## `Paginator` and `get_paginator`

The external command lookup (`process.find_command('less')`) and the
environment read (`os.environ.get('PAGER')`) are inputs of the embedding: an
optional path of the detected `less` program and an optional value of the
override variable.  The pipe opened by `os.popen` is a state with a closed
flag and the record of successful writes; an operation on a broken pipe is
the `IOError` case of an `Except`. -/

structure Pipe where
  closed : Bool
  written : List Str
  deriving DecidableEq

/-- A raw pipe write: raises `IOError` when the pipe has been closed. -/
def Pipe.write (pi : Pipe) (msg : Str) : Except Unit Pipe :=
  if pi.closed then .error ()
  else .ok { pi with written := pi.written ++ [msg] }

/-- A raw pipe close: raises `IOError` when the pipe has already gone away. -/
def Pipe.close (pi : Pipe) : Except Unit Pipe :=
  if pi.closed then .error ()
  else .ok { pi with closed := true }

structure Paginator where
  cmd : Str
  pipe : Pipe
  deriving DecidableEq

/-- The paginator command resolution of `Paginator.__init__`: `less -FRSX`
when `less` was found, overridden by the `PAGER` variable when set. -/
def paginator_cmd (less_path env_pager : Option Str) : Option Str :=
  let paginator := match less_path with
    | some path => some (path ++ " -FRSX".toList)
    | none => none
  match env_pager with
  | some value => some value
  | none => paginator

/-- `Paginator.__init__`: fails with `PagerNotFoundError` when neither the
detected program nor the override resolves; otherwise opens the pipe. -/
def Paginator.init (less_path env_pager : Option Str) :
    Except Unit Paginator :=
  match paginator_cmd less_path env_pager with
  | none => .error ()
  | some c => .ok ⟨c, ⟨false, []⟩⟩

/-- `Paginator.write`: forward to the pipe, silently discarding the message
when the pipe raises `IOError`. -/
def Paginator.write (pg : Paginator) (msg : Str) : Paginator :=
  match pg.pipe.write msg with
  | .ok pi => { pg with pipe := pi }
  | .error _ => pg

/-- `Paginator.__del__`: close the pipe, swallowing an `IOError`. -/
def Paginator.del (pg : Paginator) : Paginator :=
  match pg.pipe.close with
  | .ok pi => { pg with pipe := pi }
  | .error _ => pg

/-- What `get_paginator` hands back: a working paginator, or the process's
standard output stream. -/
inductive Sink
  | pager (pg : Paginator)
  | stdout
  deriving DecidableEq

/-- `get_paginator`: construct a `Paginator`; on `PagerNotFoundError` return
`sys.stdout` instead. -/
def get_paginator (less_path env_pager : Option Str) : Sink :=
  match Paginator.init less_path env_pager with
  | .ok pg => .pager pg
  | .error _ => .stdout

/-- C7: when neither the detected pager nor the override resolves,
`Paginator` construction fails with the no-pager error and `get_paginator`
returns the standard output stream; and for every input, `get_paginator`
returns a sink (a pager or standard output) rather than propagating the
failure. -/
theorem pager_fallback_spec :
    Paginator.init none none = Except.error ()
  ∧ get_paginator none none = Sink.stdout
  ∧ (∀ less_path env_pager : Option Str,
      (∃ pg, get_paginator less_path env_pager = Sink.pager pg)
      ∨ get_paginator less_path env_pager = Sink.stdout) := by
  refine ⟨rfl, rfl, ?_⟩
  intro less_path env_pager
  rw [get_paginator]
  cases Paginator.init less_path env_pager with
  | ok pg => exact Or.inl ⟨pg, rfl⟩
  | error e => exact Or.inr rfl

/-- C8: on a closed pipe the raw write raises, but `Paginator.write` returns
with the state unchanged (the message is silently discarded); likewise the
raw close raises and the teardown `Paginator.del` swallows it. -/
theorem pager_write_closed_spec (pg : Paginator) (msg : Str)
    (h : pg.pipe.closed = true) :
    pg.pipe.write msg = Except.error ()
  ∧ Paginator.write pg msg = pg
  ∧ pg.pipe.close = Except.error ()
  ∧ Paginator.del pg = pg := by
  have hw : pg.pipe.write msg = Except.error () := by
    rw [Pipe.write, if_pos h]
  have hc : pg.pipe.close = Except.error () := by
    rw [Pipe.close, if_pos h]
  refine ⟨hw, ?_, hc, ?_⟩
  · rw [Paginator.write, hw]
  · rw [Paginator.del, hc]

/-- Instance of the closed-pipe behavior on a concrete closed paginator. -/
theorem pager_write_closed_spec_witness :
    Paginator.write ⟨"less".toList, ⟨true, []⟩⟩ "hi".toList
        = (⟨"less".toList, ⟨true, []⟩⟩ : Paginator)
  ∧ Paginator.del ⟨"less".toList, ⟨true, []⟩⟩
        = (⟨"less".toList, ⟨true, []⟩⟩ : Paginator) :=
  ⟨(pager_write_closed_spec ⟨"less".toList, ⟨true, []⟩⟩ "hi".toList rfl).2.1,
   (pager_write_closed_spec ⟨"less".toList, ⟨true, []⟩⟩ "hi".toList rfl).2.2.2⟩

/-! ## `ProgressStreamHandler.emit`

The body of the `try` block (format the record, write it and the optional
newline to the stream, flush) is a fallible computation: it either produces
the stream output or raises an exception.  The `except` clauses re-raise the
process-terminating signals and route everything else to `handleError`. -/

inductive Exc
  | keyboardInterrupt
  | systemExit
  | other (code : Nat)
  deriving DecidableEq

/-- Which exceptions are process-terminating signals. -/
def Exc.is_terminating : Exc → Bool
  | .keyboardInterrupt => true
  | .systemExit => true
  | .other _ => false

inductive EmitOutcome (α : Type)
  | emitted (a : α)
  | errorHandled (e : Exc)
  deriving DecidableEq

/-- `ProgressStreamHandler.emit`: run the try block; re-raise
`KeyboardInterrupt` and `SystemExit`; route any other exception to
`self.handleError(record)`. -/
def ProgressStreamHandler.emit {α : Type} (body : Except Exc α) :
    Except Exc (EmitOutcome α) :=
  match body with
  | .ok a => .ok (.emitted a)
  | .error .keyboardInterrupt => .error .keyboardInterrupt
  | .error .systemExit => .error .systemExit
  | .error e => .ok (.errorHandled e)

/-- C9: a process-terminating signal raised while formatting or writing
propagates uncaught out of `emit`; every other exception is caught and routed
to the error-handling path; a successful body emits normally. -/
theorem emit_exception_routing (e : Exc) (out : List Str) :
    (e.is_terminating = true →
        ProgressStreamHandler.emit (Except.error e : Except Exc (List Str))
          = Except.error e)
  ∧ (e.is_terminating = false →
        ProgressStreamHandler.emit (Except.error e : Except Exc (List Str))
          = Except.ok (.errorHandled e))
  ∧ ProgressStreamHandler.emit (Except.ok out : Except Exc (List Str))
      = Except.ok (.emitted out) := by
  refine ⟨?_, ?_, rfl⟩
  · intro h
    cases e with
    | keyboardInterrupt => rfl
    | systemExit => rfl
    | other c => simp [Exc.is_terminating] at h
  · intro h
    cases e with
    | keyboardInterrupt => simp [Exc.is_terminating] at h
    | systemExit => simp [Exc.is_terminating] at h
    | other c => rfl

/-- Instance of the exception routing: an interrupt propagates, an ordinary
exception is handled. -/
theorem emit_exception_routing_witness :
    ProgressStreamHandler.emit
        (Except.error Exc.keyboardInterrupt : Except Exc (List Str))
      = Except.error Exc.keyboardInterrupt
  ∧ ProgressStreamHandler.emit
        (Except.error (Exc.other 7) : Except Exc (List Str))
      = Except.ok (.errorHandled (Exc.other 7)) :=
  ⟨(emit_exception_routing Exc.keyboardInterrupt []).1 rfl,
   (emit_exception_routing (Exc.other 7) []).2.1 rfl⟩
